import Mathlib

/-!
Verification of the positional-args library (src/src/positional.js, the
2021 LGPL variant exporting Argument / Command / CommandError /
CommandRegistry / SetupError).  The JavaScript classes are shallowly
embedded: JS values become `JsVal`, thrown values become `JsErr`,
functions that may throw return `Except JsErr _`, and a settled Promise
is `Except JsErr _` as well (rejected / resolved).  A function that in
async mode may ALSO throw synchronously before producing its Promise is
given the type `Except JsErr (Except JsErr _)`: the outer layer is the
synchronous throw, the inner layer the settlement of the returned
Promise.  User-supplied functions (preprocessors, handlers, error
handlers) are embedded as synchronous Lean functions, which is the
fragment the claims quantify over; the `instanceof Promise` branches of
the source are then dead and are noted where they occur.
-/

namespace Positional

/-- The fragment of JavaScript runtime values the library manipulates.
`vcmdmap` stands in for the registry's `Map` of commands when it is
injected as a forwarded argument (only its identity matters here). -/
inductive JsVal where
  | vstr (s : String)
  | vnum (n : Int)
  | vbool (b : Bool)
  | vnull
  | vundef
  | vlist (vs : List JsVal)
  | vobj (fields : List (String × JsVal))
  | vcmdmap (names : List String)

/-- Thrown JS values: `CommandError` (message, nested cause, and the
`command` tag set by `Command.#wrap`, modelled by the tagged command's
name), a plain `Error`, a `SetupError`, or any other thrown value. -/
inductive JsErr where
  | cmdError (msg : String) (nested : Option JsErr) (command : Option String)
  | plainError (msg : String)
  | setupError (msg : String)
  | thrownValue (v : JsVal)

/-- `Object.prototype.toString.call(value)`, as used by the library's
`type()` helper for error messages. -/
def jsTypeName : JsVal → String
  | .vstr _ => "[object String]"
  | .vnum _ => "[object Number]"
  | .vbool _ => "[object Boolean]"
  | .vnull => "[object Null]"
  | .vundef => "[object Undefined]"
  | .vlist _ => "[object Array]"
  | .vobj _ => "[object Object]"
  | .vcmdmap _ => "[object Map]"

/-- JS truthiness test (the library only applies it to strings,
null/undefined, arrays and objects). -/
def jsFalsy : JsVal → Bool
  | .vstr s => s.isEmpty
  | .vnum n => n == 0
  | .vbool b => !b
  | .vnull => true
  | .vundef => true
  | .vlist _ => false
  | .vobj _ => false
  | .vcmdmap _ => false

mutual

/-- JS string coercion `${value}` for the embedded value fragment. -/
def jsToString : JsVal → String
  | .vstr s => s
  | .vnum n => toString n
  | .vbool b => if b then "true" else "false"
  | .vnull => "null"
  | .vundef => "undefined"
  | .vlist vs => jsListToString vs
  | .vobj _ => "[object Object]"
  | .vcmdmap _ => "[object Map]"

/-- Array toString: elements joined by commas, null/undefined rendered
as the empty string. -/
def jsListToString : List JsVal → String
  | [] => ""
  | [v] =>
    match v with
    | .vnull => ""
    | .vundef => ""
    | v => jsToString v
  | v :: rest =>
    (match v with
     | .vnull => ""
     | .vundef => ""
     | v => jsToString v) ++ "," ++ jsListToString rest

end

/-- First-error sequencing of a list of computations' results, matching
a JS `Array.map` whose callback may throw (the first throw aborts). -/
def collectExcept : List (Except JsErr JsVal) → Except JsErr (List JsVal)
  | [] => .ok []
  | x :: xs =>
    match x with
    | .error e => .error e
    | .ok v =>
      match collectExcept xs with
      | .error e => .error e
      | .ok vs => .ok (v :: vs)

/-- Collapse a possibly-synchronously-throwing Promise-returning call to
the outcome its awaiter observes (a sync throw inside an async context
becomes a rejection). -/
def joinExcept : Except JsErr (Except JsErr α) → Except JsErr α
  | .error e => .error e
  | .ok r => r

/-- An argument object as built by `new Argument(name)` and its builder
methods.  Field names follow the source's `_name`, `_async`,
`_optional`, `_preprocessor`, `_varargs`.  The preprocessor is a
synchronous user function from the raw value to a result or a thrown
value (a result of `vundef` models a JS function that returns nothing). -/
structure Argument where
  name : String
  async : Bool
  optional : Bool
  preprocessor : Option (JsVal → Except JsErr JsVal)
  varargs : Bool

/-- `Argument.asynchronous(enabled)` (the flag update; the `SetupError`
on non-boolean input is ruled out by the embedding's types). -/
def Argument.asynchronous (a : Argument) (enabled : Bool) : Argument :=
  { a with async := enabled }

/-- The shapes `Argument.parse` distinguishes: null/undefined, a single
string, an array of strings, or anything else (`other` carries a value
that is not null, not a string and not an array). -/
inductive ArgsInput where
  | absent
  | single (s : String)
  | strlist (ss : List String)
  | other (v : JsVal)

/-- The JS value carried by an `ArgsInput` (what the source's untyped
`args` variable holds; `absent` is rendered as `undefined`, the only
observable occurrences being unreachable). -/
def ArgsInput.val : ArgsInput → JsVal
  | .absent => .vundef
  | .single s => .vstr s
  | .strlist ss => .vlist (ss.map .vstr)
  | .other v => v

/-- The `<name>` / `<name>(i+1)` argument identifier used in
preprocessor error messages (`index` is the 0-based varargs index). -/
def argId (name : String) (index : Option Nat) : String :=
  "<" ++ name ++ ">" ++
    (match index with
     | some i => "(" ++ toString (i + 1) ++ ")"
     | none => "")

/-- `Argument._applyPreprocessor(input, index)`: falsy-and-optional
short-circuits to null; no preprocessor passes the value through; a
preprocessor result of undefined keeps the input; a throw is rewrapped
as `CommandError("Bad <name> value {input}", err)`.  The source's
`processed instanceof Promise` branch cannot fire for the synchronous
preprocessors embedded here. -/
def Argument.applyPreprocessor (a : Argument) (input : JsVal) (index : Option Nat) :
    Except JsErr JsVal :=
  if jsFalsy input && a.optional then
    .ok .vnull
  else
    match a.preprocessor with
    | none => .ok input
    | some f =>
      match f input with
      | .ok v =>
        .ok (match v with
             | .vundef => input
             | v => v)
      | .error err =>
        .error (.cmdError
          ("Bad " ++ argId a.name index ++ " value '" ++ jsToString input ++ "'")
          (some err) none)

/-- `Argument._parseSingle(arg)`: required-and-absent fails, otherwise
the value goes through the preprocessor step. -/
def Argument.parseSingle (a : Argument) (arg : ArgsInput) : Except JsErr JsVal :=
  match arg with
  | .absent =>
    if a.optional then
      a.applyPreprocessor ArgsInput.absent.val none
    else
      .error (.cmdError ("Too few arguments! Missing argument <" ++ a.name ++ ">")
        none none)
  | arg => a.applyPreprocessor arg.val none

/-- `Argument._parseVarargs(args)`: required-and-absent fails with the
"requires at least one value" message; absent-and-optional becomes an
empty list; a bare non-array value is promoted to a one-element list;
each element is preprocessed with its index.  In async mode the source
returns `Promise.all` of the (here always plain) element results, which
settles to the same list. -/
def Argument.parseVarargs (a : Argument) (args : ArgsInput) : Except JsErr JsVal :=
  match args with
  | .absent =>
    if a.optional then
      .ok (.vlist [])
    else
      .error (.cmdError
        ("Too few arguments! Argument <" ++ a.name ++ "> requires at least one value.")
        none none)
  | args =>
    let elems : List JsVal :=
      match args with
      | .strlist ss => ss.map .vstr
      | args => [args.val]
    (collectExcept (elems.mapIdx fun i v => a.applyPreprocessor v (some i))).map .vlist

/-- `Argument._parseStart(args)`: dispatch on the varargs flag. -/
def Argument.parseStart (a : Argument) (args : ArgsInput) : Except JsErr JsVal :=
  if a.varargs then a.parseVarargs args else a.parseSingle args

/-- The type-check error `Argument.parse` throws for values that are
not null, not a string and not an array. -/
def argTypeError (v : JsVal) : JsErr :=
  .cmdError
    ("args was " ++ jsTypeName v ++ ", expected [object String] or 'Array<string>'")
    none none

/-- `Argument.parse(args)` with `_async` false: the type check throws,
then `_parseStart` runs directly. -/
def Argument.parseSyncMode (a : Argument) (args : ArgsInput) : Except JsErr JsVal :=
  match args with
  | .other v => .error (argTypeError v)
  | args => a.parseStart args

/-- `Argument.parse(args)` with `_async` true: the type check still
throws synchronously (outer layer); otherwise
`new Promise(resolve => resolve(this._parseStart(args)))` is returned,
whose settlement (inner layer) captures any throw from `_parseStart`. -/
def Argument.parseAsyncMode (a : Argument) (args : ArgsInput) :
    Except JsErr (Except JsErr JsVal) :=
  match args with
  | .other v => .error (argTypeError v)
  | args => .ok (a.parseStart args)

/-- The parsed-arguments object (`Args` in the source's JSDoc): a JS
object, embedded as its insertion-ordered field list. -/
abbrev Args := List (String × JsVal)

/-- JS object property assignment `obj[key] = v`: updates an existing
key in place (keeping its position) or appends a new one. -/
def jsSet (obj : Args) (key : String) (v : JsVal) : Args :=
  if obj.any (fun p => p.1 == key) then
    obj.map (fun p => if p.1 == key then (key, v) else p)
  else
    obj ++ [(key, v)]

/-- A command object.  Field names follow the source's `#name`,
`#argsets`, `#desc`, `#handler`, `#handler_err`, `#is_async`.  The
handler receives the parsed-arguments object and the forwarded values;
the error handler receives the thrown value and the forwarded values.
Both are embedded as synchronous user functions. -/
structure Command where
  name : String
  argsets : List (List Argument)
  desc : Option String
  handler : Option (JsVal → List JsVal → Except JsErr JsVal)
  handler_err : Option (JsErr → List JsVal → Except JsErr JsVal)
  is_async : Bool

/-- Whether a character is matched by the JS regex `\s` (the ASCII
fragment; the library splits chat text). -/
def isJsSpace (ch : Char) : Bool :=
  ch == ' ' || ch == '\t' || ch == '\n' || ch == '\r' || ch == '\x0b' || ch == '\x0c'

/-- Tokenizer worker: walk the characters, cutting a token at each run
of whitespace and discarding empty tokens, with `cur` the reversed
characters of the token being read. -/
def splitWsAux : List Char → List Char → List String
  | [], cur => if cur.isEmpty then [] else [String.mk cur.reverse]
  | ch :: rest, cur =>
    if isJsSpace ch then
      if cur.isEmpty then splitWsAux rest []
      else String.mk cur.reverse :: splitWsAux rest []
    else
      splitWsAux rest (ch :: cur)

/-- `Command.split(string)`: `string.split(/\s+/).filter(Boolean)` —
split on runs of whitespace and discard empty tokens. -/
def Command.split (s : String) : List String :=
  splitWsAux s.toList []

/-- `Command.#wrap(err)`: tag a `CommandError` with this command
(modelled by its name); other values pass through unchanged. -/
def Command.wrap (c : Command) : JsErr → JsErr
  | .cmdError msg nested _ => .cmdError msg nested (some c.name)
  | e => e

/-- `set.find(arg => arg._varargs)` coerced to a boolean (an `Argument`
object is always truthy). -/
def hasVarargs (set : List Argument) : Bool :=
  set.any (fun a => a.varargs)

/-- `Command.#applyAsyncToArgsets()`: re-apply this command's async
setting to every owned argument. -/
def Command.applyAsyncToArgsets (c : Command) : Command :=
  { c with argsets := c.argsets.map (fun set => set.map (fun a => a.asynchronous c.is_async)) }

/-- `Command.asynchronous(enabled)` / the `is_async` setter: store the
flag, then re-apply it to all argument sets. -/
def Command.asynchronous (c : Command) (enabled : Bool) : Command :=
  Command.applyAsyncToArgsets { c with is_async := enabled }

/-- The `max_set_len` reduction of `Command.addArgSet`. -/
def maxSetLen (sets : List (List Argument)) : Nat :=
  sets.foldl (fun mx cur => if mx < cur.length then cur.length else mx) 0

/-- `Command.addArgSet(argset)`: the five ambiguity checks, in source
order, against all previously added sets plus the new one; on success
the set is appended and the async setting re-applied.  The initial
`Array<Argument>` type check is discharged by the embedding's types. -/
def Command.addArgSet (c : Command) (argset : List Argument) : Except JsErr Command :=
  let pre := "Ambiguous argument sets"
  let allsets := c.argsets ++ [argset]
  let max_set_len := maxSetLen allsets
  if c.argsets.any (fun set => set.length == argset.length) then
    .error (.setupError (pre ++ ": Multiple sets of length " ++ toString argset.length))
  else if argset.any (fun a => a.optional) &&
      !(argset.findIdx (fun a => a.optional) == argset.length - 1) then
    .error (.setupError (pre ++ ": optional argument must be last in set"))
  else if hasVarargs argset &&
      !(argset.findIdx (fun a => a.varargs) == argset.length - 1) then
    .error (.setupError (pre ++ ": varargs argument must be last in set"))
  else if (allsets.filter hasVarargs).length > 1 then
    .error (.setupError (pre ++ ": Multiple sets containing varargs"))
  else if allsets.any hasVarargs &&
      !(allsets.findIdx hasVarargs == allsets.findIdx (fun set => set.length == max_set_len)) then
    .error (.setupError (pre ++ ": set containing varargs must be largest set"))
  else
    .ok (Command.applyAsyncToArgsets { c with argsets := allsets })

/-- The argument-set selection step of `Command.parse`: with zero or one
sets, that set (or an empty set) unconditionally; with several, the one
whose length equals the token count, or the (pre-wrapped) generic
wrong-number-of-arguments error. -/
def Command.selectArgset (c : Command) (parts : List String) :
    Except JsErr (List Argument) :=
  if c.argsets.length ≤ 1 then
    .ok (c.argsets.headD [])
  else
    match c.argsets.find? (fun set => set.length == parts.length) with
    | some set => .ok set
    | none =>
      .error (c.wrap (.cmdError
        "Wrong number of arguments! See command help for details" none none))

/-- `Command.#parseSync(arg, parsed, parts_ref)` as a state transformer
on (parsed object, remaining working copy): a varargs argument parses
the whole remaining copy and clears it; otherwise one token is shifted
off (undefined when the copy is empty) and parsed. -/
def Command.parseStepSync (arg : Argument) :
    Args × List String → Except JsErr (Args × List String) := fun st =>
  if arg.varargs then
    (arg.parseSyncMode (.strlist st.2)).map (fun v => (jsSet st.1 arg.name v, []))
  else
    match st.2 with
    | [] => (arg.parseSyncMode .absent).map (fun v => (jsSet st.1 arg.name v, []))
    | t :: rest => (arg.parseSyncMode (.single t)).map (fun v => (jsSet st.1 arg.name v, rest))

/-- `Command.#parseAsync(arg, parsed, parts_ref)`: the same transitions,
but through `await arg.parse(...)` on the async branch of
`Argument.parse` — a synchronous throw inside the `async` function and a
rejection of the awaited Promise both reject, which `joinExcept`
collapses. -/
def Command.parseStepAsync (arg : Argument) :
    Args × List String → Except JsErr (Args × List String) := fun st =>
  if arg.varargs then
    (joinExcept (arg.parseAsyncMode (.strlist st.2))).map
      (fun v => (jsSet st.1 arg.name v, []))
  else
    match st.2 with
    | [] =>
      (joinExcept (arg.parseAsyncMode .absent)).map
        (fun v => (jsSet st.1 arg.name v, []))
    | t :: rest =>
      (joinExcept (arg.parseAsyncMode (.single t))).map
        (fun v => (jsSet st.1 arg.name v, rest))

/-- Run an argument set left to right, threading the parsed object and
the working copy, stopping at the first throw/rejection — the shape
shared by the source's `argset.forEach` (sync) and
`executeSequentially` (async). -/
def Command.runArgset
    (step : Argument → Args × List String → Except JsErr (Args × List String)) :
    List Argument → Args × List String → Except JsErr (Args × List String)
  | [], st => .ok st
  | a :: rest, st =>
    match step a st with
    | .error e => .error e
    | .ok st2 => Command.runArgset step rest st2

/-- `Command.#parseCheckExtraArgs(parts_ref)`: leftover tokens fail with
the quoted, comma-joined extras. -/
def Command.parseCheckExtraArgs (parts_ref : List String) : Except JsErr Unit :=
  if parts_ref.length > 0 then
    .error (.cmdError
      ("Too many arguments! Extras: " ++
        String.intercalate ", " (parts_ref.map (fun val => "'" ++ val ++ "'")))
      none none)
  else
    .ok ()

/-- The token-walking tail of the sync branch of `Command.parse` for an
already chosen argument set: walk the set over the working copy, check
extras, return the parsed object; every error thrown under the `try`
is wrapped with this command. -/
def Command.parseWithSet (c : Command) (argset : List Argument) (parts : List String) :
    Except JsErr Args :=
  let parsed : Args := jsSet [] "_" (.vlist (parts.map .vstr))
  match Command.runArgset Command.parseStepSync argset (parsed, parts) with
  | .error e => .error (c.wrap e)
  | .ok st =>
    match Command.parseCheckExtraArgs st.2 with
    | .error e => .error (c.wrap e)
    | .ok _ => .ok st.1

/-- The token-walking tail of the async branch of `Command.parse`:
`executeSequentially` over the set, then the extras check, then the
parsed object, with `.catch(err => { throw this.#wrap(err) })`. -/
def Command.parseWithSetAsync (c : Command) (argset : List Argument) (parts : List String) :
    Except JsErr Args :=
  let parsed : Args := jsSet [] "_" (.vlist (parts.map .vstr))
  match Command.runArgset Command.parseStepAsync argset (parsed, parts) with
  | .error e => .error (c.wrap e)
  | .ok st =>
    match Command.parseCheckExtraArgs st.2 with
    | .error e => .error (c.wrap e)
    | .ok _ => .ok st.1

/-- `Command.parse(parts)`, sync branch: operate on a copy of the
tokens, record the raw tokens under the reserved key, select a set,
then walk it. -/
def Command.parseSyncMode (c : Command) (parts : List String) : Except JsErr Args :=
  match c.selectArgset parts with
  | .error e => .error e
  | .ok argset => c.parseWithSet argset parts

/-- `Command.parse(parts)`, async branch: the wrong-number error is
returned as `Promise.reject`; otherwise the walk runs inside the
Promise chain.  The outer layer records that this branch never throws
synchronously on token-list input. -/
def Command.parseAsyncMode (c : Command) (parts : List String) :
    Except JsErr (Except JsErr Args) :=
  match c.selectArgset parts with
  | .error e => .ok (.error e)
  | .ok argset => .ok (c.parseWithSetAsync argset parts)

/-- `Command.#executeHandleError(err, ...forward)`: wrap the error with
this command; an error handler's result (or its own throw, unwrapped)
becomes the outcome, otherwise the wrapped error is rethrown.  Shared
by the sync and async execute branches. -/
def Command.executeHandleError (c : Command) (err : JsErr) (forward : List JsVal) :
    Except JsErr JsVal :=
  let err := c.wrap err
  match c.handler_err with
  | some f => f err forward
  | none => .error err

/-- `Command.#executeSync(parts, ...forward)`: parse, then run the
handler (its throw wrapped as `CommandError("Command failed", err)`),
routing every error through `#executeHandleError`; without a handler
the parsed input is validated and undefined returned. -/
def Command.executeSyncTokens (c : Command) (parts : List String) (forward : List JsVal) :
    Except JsErr JsVal :=
  match c.parseSyncMode parts with
  | .error err => c.executeHandleError err forward
  | .ok parsed =>
    match c.handler with
    | none => .ok .vundef
    | some h =>
      match h (.vobj parsed) forward with
      | .ok v => .ok v
      | .error err => c.executeHandleError (.cmdError "Command failed" (some err) none) forward

/-- `Command.#executeAsync(parts, ...forward)`:
`Promise.resolve(this.parse(parts))`, then the handler inside
`new Promise` (so its synchronous throw also rejects) with the
`Command failed` wrapper, then `.catch(err =>
this.#executeHandleError(err, ...forward))`.  Outer layer: a
synchronous throw out of `this.parse` would escape `#executeAsync`
synchronously. -/
def Command.executeAsyncTokens (c : Command) (parts : List String) (forward : List JsVal) :
    Except JsErr (Except JsErr JsVal) :=
  match c.parseAsyncMode parts with
  | .error e => .error e
  | .ok promise =>
    .ok (match promise with
      | .error err => c.executeHandleError err forward
      | .ok parsed =>
        match c.handler with
        | none => .ok .vundef
        | some h =>
          match h (.vobj parsed) forward with
          | .ok v => .ok v
          | .error err =>
            c.executeHandleError (.cmdError "Command failed" (some err) none) forward)

/-- The inputs `Command.execute` accepts: a raw command string, a
pre-split token array, or nothing at all (`execute()`), which
`parse`'s `parts || []` turns into an empty token list. -/
inductive ExecParts where
  | str (s : String)
  | toks (ts : List String)
  | noinput

/-- The token list `Command.execute` hands to `parse` for each accepted
input shape. -/
def ExecParts.tokens : ExecParts → List String
  | .str s => Command.split s
  | .toks ts => ts
  | .noinput => []

/-- `Command.execute` in sync mode (`is_async` false). -/
def Command.executeSyncMode (c : Command) (parts : ExecParts) (forward : List JsVal) :
    Except JsErr JsVal :=
  c.executeSyncTokens parts.tokens forward

/-- `Command.execute` in async mode (`is_async` true). -/
def Command.executeAsyncMode (c : Command) (parts : ExecParts) (forward : List JsVal) :
    Except JsErr (Except JsErr JsVal) :=
  c.executeAsyncTokens parts.tokens forward

/-- The outcome of `Command.execute` as its caller eventually observes
it, whichever mode the command is in (in async mode the settlement of
the returned Promise, a synchronous escape collapsing into it). -/
def Command.executeDispatch (c : Command) (parts : List String) (forward : List JsVal) :
    Except JsErr JsVal :=
  if c.is_async then
    joinExcept (c.executeAsyncTokens parts forward)
  else
    c.executeSyncTokens parts forward

/-- A command registry: the insertion-ordered `Map` of commands (as an
association list with unique keys), the async flag, and the optional
default handler, which receives the full token array (command name
included, as JS values since a missing name is `undefined`) plus the
forwarded values. -/
structure CommandRegistry where
  commands : List (String × Command)
  is_async : Bool
  default_handler : Option (List JsVal → List JsVal → Except JsErr JsVal)

/-- `CommandRegistry.defaultDefaultHandler(cmd_parts)`: shift the
command name off and throw `Error("Unrecognized command ...")`. -/
def CommandRegistry.defaultDefaultHandler :
    List JsVal → List JsVal → Except JsErr JsVal := fun cmd_parts _ =>
  let cmd_name := cmd_parts.headD .vundef
  .error (.plainError ("Unrecognized command '" ++ jsToString cmd_name ++ "'"))

/-- `CommandRegistry.#applyAsyncToCommands()`: re-apply the registry's
async setting to every owned command (which re-applies it to the
command's arguments in turn). -/
def CommandRegistry.applyAsyncToCommands (r : CommandRegistry) : CommandRegistry :=
  { r with commands := r.commands.map (fun p => (p.1, p.2.asynchronous r.is_async)) }

/-- `CommandRegistry.asynchronous(enabled)` / the `is_async` setter:
store the flag, then re-apply it to all commands. -/
def CommandRegistry.asynchronous (r : CommandRegistry) (enabled : Bool) : CommandRegistry :=
  CommandRegistry.applyAsyncToCommands { r with is_async := enabled }

/-- `CommandRegistry.add(command)`: duplicate names are a `SetupError`;
on success the command is stored and the async setting re-applied to
all commands.  The `instanceof Command` check is discharged by the
embedding's types. -/
def CommandRegistry.add (r : CommandRegistry) (command : Command) :
    Except JsErr CommandRegistry :=
  if r.commands.any (fun p => p.1 == command.name) then
    .error (.setupError ("Defined duplicate command '" ++ command.name ++ "'"))
  else
    .ok (CommandRegistry.applyAsyncToCommands
      { r with commands := r.commands ++ [(command.name, command)] })

/-- `CommandRegistry.execute(parts, ...forward)` on a pre-split token
array, returning the outcome together with the contents of the
caller's array after the call: `parts.shift()` removes the command
name in place, and no later step mutates the array (the matched
command's `parse` operates on slices, and the default-handler call
builds a fresh `[cmd_name, ...parts]` array).  In async mode the same
computation runs inside the Promise executor, synchronously. -/
def CommandRegistry.executeTokens (r : CommandRegistry) (parts : List String)
    (forward : List JsVal) : Except JsErr JsVal × List String :=
  match parts with
  | [] =>
    (match r.default_handler with
     | some f => f [JsVal.vundef] forward
     | none => .ok .vundef,
     [])
  | cmd_name :: rest =>
    (match r.commands.find? (fun p => p.1 == cmd_name) with
     | some p =>
       let mod_forward :=
         if cmd_name == "help" then
           JsVal.vcmdmap (r.commands.map Prod.fst) :: forward
         else forward
       p.2.executeDispatch rest mod_forward
     | none =>
       match r.default_handler with
       | some f => f (JsVal.vstr cmd_name :: rest.map .vstr) forward
       | none => .ok .vundef,
     rest)

/-- `CommandRegistry.execute` on a raw command string: split it, then
dispatch (the split array is local, so no caller-visible array
exists). -/
def CommandRegistry.executeStr (r : CommandRegistry) (s : String)
    (forward : List JsVal) : Except JsErr JsVal :=
  (r.executeTokens (Command.split s) forward).1

/-- `CommandRegistry.help(cmd_name, ...forward)`:
`this.execute("help " + (cmd_name || ""), ...forward)`. -/
def CommandRegistry.help (r : CommandRegistry) (cmd_name : Option String)
    (forward : List JsVal) : Except JsErr JsVal :=
  r.executeStr ("help " ++ cmd_name.getD "") forward

/-- `Command.parse` and the caller's array: the source copies its input
(`parts.slice()`, twice) and mutates only the copies, so the array the
caller observes after the call is the input itself.  This wrapper
returns the outcome together with that caller-visible array, for frame
reasoning alongside `CommandRegistry.executeTokens`. -/
def Command.parseWithCallerArray (c : Command) (parts : List String) :
    Except JsErr Args × List String :=
  (c.parseSyncMode parts, parts)

/-- The input shapes `Argument.parse` accepts without its initial
type-check throw: null/undefined, a string, or an array. -/
def ArgsInput.wellShaped : ArgsInput → Prop
  | .other _ => False
  | _ => True

/-- Two sets of equal length exist among the given sets. -/
def hasDupLengths : List (List Argument) → Bool
  | [] => false
  | s :: rest => rest.any (fun t => t.length == s.length) || hasDupLengths rest

/-- Some optional argument stands before the last position of the set. -/
def optionalNotLast (set : List Argument) : Bool :=
  set.dropLast.any (fun a => a.optional)

/-- Some varargs argument stands before the last position of the set. -/
def varargsNotLast (set : List Argument) : Bool :=
  set.dropLast.any (fun a => a.varargs)

/-- More than one of the given sets contains a varargs argument. -/
def multipleVarargsSets (sets : List (List Argument)) : Bool :=
  (sets.filter hasVarargs).length > 1

/-- Some varargs-containing set is shorter than another set, so it is
not the strictly largest set (two sets of equal length fall under
`hasDupLengths` instead). -/
def varargsNotLargest (sets : List (List Argument)) : Bool :=
  sets.any (fun s => hasVarargs s && sets.any (fun t => s.length < t.length))

/-- The disjunction of the five `addArgSet` rules of the claim,
evaluated on all previously added sets plus the new one. -/
def addArgSetViolation (prev : List (List Argument)) (argset : List Argument) : Bool :=
  hasDupLengths (prev ++ [argset]) || optionalNotLast argset || varargsNotLast argset ||
    multipleVarargsSets (prev ++ [argset]) || varargsNotLargest (prev ++ [argset])

/-- Combine one argument's parse result with the remaining entries:
first error wins, otherwise the (name, value) entry is prepended. -/
def expectedEntriesStep (a : Argument) (v : Except JsErr JsVal)
    (restRes : Except JsErr (List (String × JsVal) × List String)) :
    Except JsErr (List (String × JsVal) × List String) :=
  match v with
  | .error e => .error e
  | .ok v =>
    match restRes with
    | .error e => .error e
    | .ok pr => .ok ((a.name, v) :: pr.1, pr.2)

/-- The per-argument token consumption of `Command.parse` stated
argument by argument: a non-varargs argument takes the head token (or
absent), a varargs argument takes the whole remainder; returns the
(name, value) entries in set order along with the leftover tokens. -/
def expectedEntries : List Argument → List String →
    Except JsErr (List (String × JsVal) × List String)
  | [], toks => .ok ([], toks)
  | a :: rest, toks =>
    if a.varargs then
      expectedEntriesStep a (a.parseSyncMode (.strlist toks)) (expectedEntries rest [])
    else
      match toks with
      | [] => expectedEntriesStep a (a.parseSyncMode .absent) (expectedEntries rest [])
      | t :: ts => expectedEntriesStep a (a.parseSyncMode (.single t)) (expectedEntries rest ts)

/-- All arguments owned by the command carry the command's async flag. -/
def Command.argsSynced (c : Command) : Prop :=
  ∀ set ∈ c.argsets, ∀ a ∈ set, a.async = c.is_async

/-- All commands owned by the registry carry the registry's async flag,
and their arguments theirs. -/
def CommandRegistry.ownSynced (r : CommandRegistry) : Prop :=
  ∀ p ∈ r.commands, p.2.is_async = r.is_async ∧ p.2.argsSynced

/-! Concrete configurations used by counterexamples and witnesses. -/

/-- A required varargs argument named `a`. -/
def argReqVarargs : Argument := ⟨"a", false, false, none, true⟩

/-- A command whose single argument set is the one required varargs
argument. -/
def cmdReqVarargs : Command := ⟨"test", [[argReqVarargs]], none, none, none, false⟩

/-- A required single-token argument named `arg`. -/
def argSingleReq : Argument := ⟨"arg", false, false, none, false⟩

/-- A command with a required argument and an error handler that itself
throws a plain `Error`. -/
def cmdThrowingErrHandler : Command :=
  ⟨"test", [[argSingleReq]], none, none,
    some (fun _ _ => .error (.plainError "handler exploded")), false⟩

/-- An argument in async mode. -/
def argAsyncX : Argument := ⟨"x", true, false, none, false⟩

/-- An argument literally named `_`, shadowing the reserved key. -/
def argNamedUnderscore : Argument := ⟨"_", false, false, none, false⟩

/-- A command whose single argument set is the `_`-named argument. -/
def cmdUnderscore : Command := ⟨"t", [[argNamedUnderscore]], none, none, none, false⟩

/-- Arguments `one` and `two` of the round-trip example. -/
def argOne : Argument := ⟨"one", false, false, none, false⟩

/-- Second argument of the round-trip example. -/
def argTwo : Argument := ⟨"two", false, false, none, false⟩

/-- The round-trip command: a two-argument set and the identity handler
`args => args`. -/
def cmdRoundTrip : Command :=
  ⟨"t", [[argOne, argTwo]], none, some (fun a _ => .ok a), none, false⟩

/-- A registry with no commands and the built-in default handler
configured. -/
def regOnlyDefault : CommandRegistry :=
  ⟨[], false, some CommandRegistry.defaultDefaultHandler⟩

/-- A registry with no commands and no default handler. -/
def regBare : CommandRegistry := ⟨[], false, none⟩

/-- A plain argument named `x`, everything off. -/
def argPlainX : Argument := ⟨"x", false, false, none, false⟩

/-- A plain argument named `y`, everything off. -/
def argPlainY : Argument := ⟨"y", false, false, none, false⟩

/-- A plain argument named `z`, everything off. -/
def argPlainZ : Argument := ⟨"z", false, false, none, false⟩

/-- A command with two argument sets, of lengths 1 and 3. -/
def cmdTwoSets : Command :=
  ⟨"two", [[argPlainX], [argPlainX, argPlainY, argPlainZ]], none, none, none, false⟩

/-- An empty command used to exercise the builder operations. -/
def cmdEmptyW : Command := ⟨"w", [], none, none, none, false⟩

/-- A registry used to exercise `CommandRegistry.add`. -/
def regW : CommandRegistry := ⟨[], true, none⟩

/-! Theorems.  Each claim of the specification gets one theorem (plus a
counterexample where the claim as stated fails, and a witness where the
theorem carries hypotheses). -/

/-- C10: `CommandRegistry.execute` on a pre-split token array shifts
the command name off the caller's array in place, so the caller
afterwards observes the original array minus its head, whatever the
registry and forwarded values; `Command.parse`, by contrast, operates
on copies and leaves its caller's array untouched. -/
theorem claim10_registry_execute_frame (r : CommandRegistry) (parts : List String)
    (forward : List JsVal) :
    (r.executeTokens parts forward).2 = parts.tail ∧
    ∀ (c : Command) (ps : List String), (c.parseWithCallerArray ps).2 = ps := by
  constructor
  · cases parts <;> rfl
  · intro c ps
    rfl

/-- C8 counterexample: on a registry with a default handler configured
and no help command, `help()` is not a no-op — the default handler
receives the synthesized `help` token and (here) throws. -/
theorem claim8_counterexample :
    regOnlyDefault.help none [] =
      .error (.plainError "Unrecognized command 'help'") := rfl

/-- C8 (amended): on a registry where no help command has been
configured AND no default handler is installed, `help(cmd_name,
...forward)` is a no-op resolving to undefined for every command name
and forwarded arguments.  (With a default handler installed the `help
<cmd_name>` line falls through to it instead.) -/
theorem claim8_help_noop (r : CommandRegistry) (cmd_name : Option String)
    (forward : List JsVal)
    (hnohelp : ∀ p ∈ r.commands, p.1 ≠ "help")
    (hnodef : r.default_handler = none) :
    r.help cmd_name forward = .ok .vundef := by
  have hsplit : Command.split ("help " ++ cmd_name.getD "") =
      "help" :: Command.split (cmd_name.getD "") := by
    show splitWsAux ("help " ++ cmd_name.getD "").toList [] =
      "help" :: splitWsAux (cmd_name.getD "").toList []
    have hd : ("help " ++ cmd_name.getD "").toList =
        'h' :: 'e' :: 'l' :: 'p' :: ' ' :: (cmd_name.getD "").toList := by
      show ("help " ++ cmd_name.getD "").data = _
      rw [String.data_append]
      rfl
    rw [hd]
    simp [splitWsAux, isJsSpace]
  have hfind : r.commands.find? (fun p => p.1 == "help") = none := by
    rw [List.find?_eq_none]
    intro p hp
    simpa using hnohelp p hp
  unfold CommandRegistry.help CommandRegistry.executeStr
  rw [hsplit]
  simp [CommandRegistry.executeTokens, hfind, hnodef]

/-- C8 witness: the amended no-op at a concrete registry. -/
theorem claim8_help_noop_witness : regBare.help (some "say") [] = .ok .vundef :=
  claim8_help_noop regBare (some "say") [] (by intro p hp; cases hp) rfl

/-- C4 (code bug): when the error handler itself throws, the thrown
value reaches the caller unchanged — it is NOT rewrapped as a
`CommandError`, contradicting the claim and the source's own JSDoc for
`Command.error` ("Values thrown within this handler will be re-thrown
to the caller as a CommandError").  At the failing input — a command
whose parse fails (missing required argument) and whose error handler
throws a plain `Error("handler exploded")` — the sync branch throws
that plain error and the async branch rejects with it, unwrapped. -/
theorem claim4_error_handler_throw_unwrapped :
    cmdThrowingErrHandler.executeSyncTokens [] [] =
      .error (.plainError "handler exploded") ∧
    cmdThrowingErrHandler.executeAsyncTokens [] [] =
      .ok (.error (.plainError "handler exploded")) := by
  exact ⟨rfl, rfl⟩

/-- C2 counterexample: a command whose matched set is a single required
varargs argument parses an empty token list successfully, binding the
argument to an empty list — it does not fail. -/
theorem claim2_counterexample :
    cmdReqVarargs.parseSyncMode [] =
      .ok [("_", JsVal.vlist []), ("a", JsVal.vlist [])] := rfl

/-- C2 (amended): `Argument.parse` on a required varargs argument does
fail with the "requires at least one value" error when its input is
absent (null/undefined); but `Command.parse` hands the varargs argument
the remaining token ARRAY, so a token list that leaves zero tokens for
a trailing required varargs argument parses successfully, binding the
argument's name (any name other than the reserved key) to an empty
list rather than failing. -/
theorem claim2_varargs_required (a : Argument) (name : String)
    (hv : a.varargs = true) (ho : a.optional = false) (hn : name ≠ "_") :
    a.parseSyncMode .absent =
      .error (.cmdError
        ("Too few arguments! Argument <" ++ a.name ++ "> requires at least one value.")
        none none) ∧
    (Command.mk "test" [[Argument.mk name false false none true]] none none none
        false).parseSyncMode [] =
      .ok [("_", JsVal.vlist []), (name, JsVal.vlist [])] := by
  constructor
  · simp [Argument.parseSyncMode, Argument.parseStart, Argument.parseVarargs, hv, ho]
  · simp [Command.parseSyncMode, Command.selectArgset, Command.parseWithSet,
      Command.runArgset, Command.parseStepSync, Argument.parseSyncMode,
      Argument.parseStart, Argument.parseVarargs, collectExcept, jsSet,
      Command.parseCheckExtraArgs, Command.wrap, Except.map, hn, Ne.symm hn]

/-- C2 witness: the amended statement at the concrete required varargs
argument. -/
theorem claim2_varargs_required_witness :
    argReqVarargs.parseSyncMode .absent =
      .error (.cmdError
        ("Too few arguments! Argument <" ++ argReqVarargs.name ++
          "> requires at least one value.")
        none none) ∧
    (Command.mk "test" [[Argument.mk "a" false false none true]] none none none
        false).parseSyncMode [] =
      .ok [("_", JsVal.vlist []), ("a", JsVal.vlist [])] :=
  claim2_varargs_required argReqVarargs "a" rfl rfl (by decide)

/-- C3 counterexample: an async-mode argument given an input that is
not null, not a string and not an array (here a boolean) throws its
type-check `CommandError` synchronously instead of returning a
rejected deferred value. -/
theorem claim3_counterexample :
    argAsyncX.parseAsyncMode (.other (.vbool true)) =
      .error (.cmdError
        "args was [object Boolean], expected [object String] or 'Array<string>'"
        none none) := rfl

/-- C3 (amended): for an async-mode argument and every input that IS
null/undefined, a string, or an array, `parse` returns a deferred
value (never a synchronous throw) that settles like `_parseStart`; for
any other input it throws a `CommandError` synchronously even in async
mode (the counterexample). -/
theorem claim3_async_parse_defers (a : Argument) (args : ArgsInput)
    (_ha : a.async = true) (hw : args.wellShaped) :
    a.parseAsyncMode args = .ok (a.parseStart args) := by
  cases args with
  | absent => rfl
  | single s => rfl
  | strlist ss => rfl
  | other v => exact absurd hw (by simp [ArgsInput.wellShaped])

/-- C3 witness: the amended statement at a concrete async argument and
input. -/
theorem claim3_async_parse_defers_witness :
    argAsyncX.parseAsyncMode (.single "v") = .ok (argAsyncX.parseStart (.single "v")) :=
  claim3_async_parse_defers argAsyncX (.single "v") rfl trivial

/-- After `#applyAsyncToArgsets`, every owned argument carries the
command's async flag. -/
theorem applyAsyncToArgsets_synced (c : Command) : c.applyAsyncToArgsets.argsSynced := by
  intro set hset a ha
  simp only [Command.applyAsyncToArgsets, List.mem_map] at hset
  obtain ⟨set0, _, rfl⟩ := hset
  simp only [List.mem_map] at ha
  obtain ⟨a0, _, rfl⟩ := ha
  rfl

/-- `Command.asynchronous` stores the flag it was given. -/
theorem asynchronous_is_async (c : Command) (b : Bool) :
    (c.asynchronous b).is_async = b := rfl

/-- A successful `addArgSet` produces exactly the re-propagated command
with the new set appended. -/
theorem addArgSet_ok_eq (c : Command) (argset : List Argument) (c' : Command)
    (h : c.addArgSet argset = .ok c') :
    c' = Command.applyAsyncToArgsets { c with argsets := c.argsets ++ [argset] } := by
  unfold Command.addArgSet at h
  simp only at h
  split at h
  · cases h
  · split at h
    · cases h
    · split at h
      · cases h
      · split at h
        · cases h
        · split at h
          · cases h
          · cases h
            rfl

/-- A successful `CommandRegistry.add` produces exactly the
re-propagated registry with the new command stored. -/
theorem registry_add_ok_eq (r : CommandRegistry) (cmd : Command) (r' : CommandRegistry)
    (h : r.add cmd = .ok r') :
    r' = CommandRegistry.applyAsyncToCommands
      { r with commands := r.commands ++ [(cmd.name, cmd)] } := by
  unfold CommandRegistry.add at h
  split at h
  · cases h
  · cases h
    rfl

/-- After `#applyAsyncToCommands`, every owned command (and its
arguments) carries the registry's async flag. -/
theorem applyAsyncToCommands_synced (r : CommandRegistry) :
    r.applyAsyncToCommands.ownSynced := by
  intro p hp
  simp only [CommandRegistry.applyAsyncToCommands, List.mem_map] at hp
  obtain ⟨p0, _, rfl⟩ := hp
  refine ⟨rfl, ?_⟩
  have h := applyAsyncToArgsets_synced { p0.2 with is_async := r.is_async }
  exact h

/-- C9: after each builder operation — `Command.addArgSet`,
`Command.asynchronous`, `CommandRegistry.add`,
`CommandRegistry.asynchronous` — the async setting has been eagerly
re-propagated down the ownership tree: every argument owned by the
resulting command carries its `is_async`, and every command owned by
the resulting registry carries the registry's `is_async` (and its
arguments carry the command's). -/
theorem claim9_async_propagation :
    (∀ (c : Command) (argset : List Argument) (c' : Command),
      c.addArgSet argset = .ok c' → c'.argsSynced) ∧
    (∀ (c : Command) (b : Bool), (c.asynchronous b).argsSynced) ∧
    (∀ (r : CommandRegistry) (cmd : Command) (r' : CommandRegistry),
      r.add cmd = .ok r' → r'.ownSynced) ∧
    (∀ (r : CommandRegistry) (b : Bool), (r.asynchronous b).ownSynced) := by
  refine ⟨?_, ?_, ?_, ?_⟩
  · intro c argset c' h
    rw [addArgSet_ok_eq c argset c' h]
    exact applyAsyncToArgsets_synced _
  · intro c b
    exact applyAsyncToArgsets_synced _
  · intro r cmd r' h
    rw [registry_add_ok_eq r cmd r' h]
    exact applyAsyncToCommands_synced _
  · intro r b
    exact applyAsyncToCommands_synced _

/-- C9 witness: the propagation at a concrete command and registry
(an async registry receiving a sync command, a sync command receiving
a new argument set). -/
theorem claim9_async_propagation_witness :
    (Command.mk "w" [[argPlainX]] none none none false).argsSynced ∧
    (CommandRegistry.mk [("w", cmdEmptyW.asynchronous true)] true none).ownSynced := by
  constructor
  · exact claim9_async_propagation.1 cmdEmptyW [argPlainX] _ rfl
  · exact claim9_async_propagation.2.2.1 regW cmdEmptyW _ rfl

/-- Awaiting the async branch of `Argument.parse` observes exactly the
sync branch's outcome: the type-check throw rejects identically, and
the deferred `_parseStart` settles to its direct result. -/
theorem arg_async_settles_like_sync (a : Argument) (args : ArgsInput) :
    joinExcept (a.parseAsyncMode args) = a.parseSyncMode args := by
  cases args <;> rfl

/-- The async per-argument parse step computes the same state
transition as the sync one. -/
theorem parseStepAsync_eq_sync (arg : Argument) (st : Args × List String) :
    Command.parseStepAsync arg st = Command.parseStepSync arg st := by
  unfold Command.parseStepAsync Command.parseStepSync
  simp only [arg_async_settles_like_sync]

/-- Running an argument set with the async step equals running it with
the sync step. -/
theorem runArgset_async_eq_sync (argset : List Argument) (st : Args × List String) :
    Command.runArgset Command.parseStepAsync argset st =
      Command.runArgset Command.parseStepSync argset st := by
  induction argset generalizing st with
  | nil => rfl
  | cons a rest ih =>
    unfold Command.runArgset
    rw [parseStepAsync_eq_sync]
    cases Command.parseStepSync a st with
    | error e => rfl
    | ok st2 => exact ih st2

/-- The async walking tail of `Command.parse` equals the sync one. -/
theorem parseWithSetAsync_eq_sync (c : Command) (argset : List Argument)
    (parts : List String) :
    c.parseWithSetAsync argset parts = c.parseWithSet argset parts := by
  unfold Command.parseWithSetAsync Command.parseWithSet
  simp only [runArgset_async_eq_sync]

/-- The async branch of `Command.parse` never throws synchronously on a
token list and settles to exactly the sync branch's outcome. -/
theorem parseAsyncMode_eq_sync (c : Command) (parts : List String) :
    c.parseAsyncMode parts = .ok (c.parseSyncMode parts) := by
  unfold Command.parseAsyncMode Command.parseSyncMode
  cases c.selectArgset parts with
  | error e => rfl
  | ok argset => simp only [parseWithSetAsync_eq_sync]

/-- The async branch of `Command.execute` never throws synchronously on
a token list and settles to exactly the sync branch's outcome. -/
theorem executeAsyncTokens_eq_sync (c : Command) (parts : List String)
    (forward : List JsVal) :
    c.executeAsyncTokens parts forward = .ok (c.executeSyncTokens parts forward) := by
  unfold Command.executeAsyncTokens Command.executeSyncTokens
  rw [parseAsyncMode_eq_sync]

/-- `Argument.asynchronous` changes only the async flag, which the
parsing pipeline never reads, so the sync parse outcome is unchanged. -/
theorem arg_parseSyncMode_asynchronous (a : Argument) (b : Bool) (args : ArgsInput) :
    (a.asynchronous b).parseSyncMode args = a.parseSyncMode args := rfl

/-- The sync parse step likewise ignores the argument's async flag. -/
theorem parseStepSync_asynchronous (a : Argument) (b : Bool) (st : Args × List String) :
    Command.parseStepSync (a.asynchronous b) st = Command.parseStepSync a st := rfl

/-- Running an argument set whose arguments were re-flagged by
`asynchronous` computes the same walk. -/
theorem runArgset_map_asynchronous (b : Bool) (argset : List Argument)
    (st : Args × List String) :
    Command.runArgset Command.parseStepSync (argset.map (fun a => a.asynchronous b)) st =
      Command.runArgset Command.parseStepSync argset st := by
  induction argset generalizing st with
  | nil => rfl
  | cons a rest ih =>
    unfold Command.runArgset
    simp only [List.map_cons, parseStepSync_asynchronous]
    cases Command.parseStepSync a st with
    | error e => rfl
    | ok st2 => exact ih st2

/-- Toggling a command's async mode does not change its sync-branch
parse outcome. -/
theorem parseSyncMode_asynchronous (c : Command) (b : Bool) (parts : List String) :
    (c.asynchronous b).parseSyncMode parts = c.parseSyncMode parts := by
  have hsets : (c.asynchronous b).argsets =
      c.argsets.map (fun set => set.map (fun a => a.asynchronous b)) := rfl
  have hsel : (c.asynchronous b).selectArgset parts =
      (c.selectArgset parts).map (fun set => set.map (fun a => a.asynchronous b)) := by
    unfold Command.selectArgset
    rw [hsets, List.length_map]
    by_cases hle : c.argsets.length ≤ 1
    · simp only [hle, if_pos]
      cases c.argsets with
      | nil => rfl
      | cons s rest => rfl
    · simp only [hle, if_neg, not_false_iff]
      rw [List.find?_map]
      have hpred : ((fun set => set.length == parts.length) ∘
          fun set => set.map fun a => a.asynchronous b) =
          (fun set : List Argument => set.length == parts.length) := by
        funext set
        simp
      rw [hpred]
      cases c.argsets.find? (fun set => set.length == parts.length) with
      | none => rfl
      | some set => rfl
  unfold Command.parseSyncMode
  rw [hsel]
  cases c.selectArgset parts with
  | error e => rfl
  | ok argset =>
    show (c.asynchronous b).parseWithSet (argset.map fun a => a.asynchronous b) parts =
      c.parseWithSet argset parts
    unfold Command.parseWithSet
    simp only [runArgset_map_asynchronous]
    rfl

/-- Toggling a command's async mode does not change the sync-branch
execute outcome. -/
theorem executeSyncTokens_asynchronous (c : Command) (b : Bool) (parts : List String)
    (forward : List JsVal) :
    (c.asynchronous b).executeSyncTokens parts forward =
      c.executeSyncTokens parts forward := by
  unfold Command.executeSyncTokens
  rw [parseSyncMode_asynchronous]
  rfl

/-- C1: for configurations whose preprocessors, handlers and error
handlers are synchronous (the user functions of this embedding),
toggling `asynchronous(true)` changes only the calling convention:
for every input the Promise returned by the async-mode `parse` /
`execute` settles to exactly the value or error the sync-mode call
returns or throws (and neither async-mode call throws synchronously),
while `asynchronous` itself only flips the stored mode flag. -/
theorem claim1_sync_async_equivalent (c : Command) (inp : ExecParts)
    (toks : List String) (forward : List JsVal) :
    (c.asynchronous true).parseAsyncMode toks =
      .ok ((c.asynchronous false).parseSyncMode toks) ∧
    (c.asynchronous true).executeAsyncMode inp forward =
      .ok ((c.asynchronous false).executeSyncMode inp forward) ∧
    (c.asynchronous true).is_async = true ∧
    (c.asynchronous false).is_async = false := by
  refine ⟨?_, ?_, rfl, rfl⟩
  · rw [parseAsyncMode_eq_sync, parseSyncMode_asynchronous, parseSyncMode_asynchronous]
  · unfold Command.executeAsyncMode Command.executeSyncMode
    rw [executeAsyncTokens_eq_sync, executeSyncTokens_asynchronous,
      executeSyncTokens_asynchronous]

/-- With pairwise-distinct set lengths, `find?` on length equality
returns exactly the member of that length. -/
theorem find?_length_unique {sets : List (List Argument)} {set : List Argument} {n : Nat}
    (hpw : sets.Pairwise fun s t => s.length ≠ t.length)
    (hmem : set ∈ sets) (hlen : set.length = n) :
    sets.find? (fun s => s.length == n) = some set := by
  induction sets with
  | nil => cases hmem
  | cons head tail ih =>
    rw [List.pairwise_cons] at hpw
    rcases List.mem_cons.mp hmem with rfl | hmem2
    · exact List.find?_cons_of_pos _ (by simp [hlen])
    · have hne : head.length ≠ n := by
        intro h
        exact hpw.1 set hmem2 (by rw [h, hlen])
      rw [List.find?_cons_of_neg _ (by simp [hne])]
      exact ih hpw.2 hmem2

/-- C7: `Command.parse` selects its argument set as the claim says:
with zero or one sets that set (or an empty set) is walked
unconditionally with no arity pre-check; with several sets, exactly
the set whose length equals the token count is walked, and when no
length matches, parse fails with the generic wrong-number-of-arguments
error, blaming no specific argument. -/
theorem claim7_set_selection (c : Command) (parts : List String) :
    (c.argsets.length ≤ 1 →
      c.parseSyncMode parts = c.parseWithSet (c.argsets.headD []) parts) ∧
    (1 < c.argsets.length →
      ((c.argsets.Pairwise fun s t => s.length ≠ t.length) →
        ∀ set ∈ c.argsets, set.length = parts.length →
          c.parseSyncMode parts = c.parseWithSet set parts) ∧
      ((∀ set ∈ c.argsets, set.length ≠ parts.length) →
        c.parseSyncMode parts = .error (.cmdError
          "Wrong number of arguments! See command help for details" none (some c.name)))) := by
  constructor
  · intro hle
    unfold Command.parseSyncMode Command.selectArgset
    simp only [hle, if_pos]
  · intro hgt
    have hnle : ¬ c.argsets.length ≤ 1 := by omega
    constructor
    · intro hpw set hmem hlen
      unfold Command.parseSyncMode Command.selectArgset
      simp only [hnle, if_neg, not_false_iff]
      rw [find?_length_unique hpw hmem hlen]
    · intro hnone
      unfold Command.parseSyncMode Command.selectArgset
      simp only [hnle, if_neg, not_false_iff]
      have hfind : c.argsets.find? (fun s => s.length == parts.length) = none := by
        rw [List.find?_eq_none]
        intro s hs
        simpa using hnone s hs
      rw [hfind]
      rfl

/-- C7 witness: the selection on a command with sets of lengths one and
three — one token walks the length-one set, two tokens fail with the
generic error. -/
theorem claim7_set_selection_witness :
    cmdTwoSets.parseSyncMode ["a"] = cmdTwoSets.parseWithSet [argPlainX] ["a"] ∧
    cmdTwoSets.parseSyncMode ["a", "b"] = .error (.cmdError
      "Wrong number of arguments! See command help for details" none
      (some cmdTwoSets.name)) := by
  constructor
  · exact (claim7_set_selection cmdTwoSets ["a"]).2 (by decide)
      |>.1 (by decide) [argPlainX] (by simp [cmdTwoSets]) rfl
  · exact (claim7_set_selection cmdTwoSets ["a", "b"]).2 (by decide)
      |>.2 (by decide)

/-- Assigning a key not yet present appends it. -/
theorem jsSet_fresh (obj : Args) (key : String) (v : JsVal)
    (h : ∀ kv ∈ obj, kv.1 ≠ key) :
    jsSet obj key v = obj ++ [(key, v)] := by
  unfold jsSet
  have hany : obj.any (fun p => p.1 == key) = false := by
    rw [List.any_eq_false]
    intro p hp
    simpa using h p hp
  rw [hany]
  simp

/-- The parse walk, entry by entry: with fresh, pairwise-distinct
argument names, walking an argument set appends exactly the
per-argument entries of `expectedEntries` to the parsed object. -/
theorem runArgset_expected (argset : List Argument) (parsed : Args) (toks : List String)
    (hfresh : ∀ a ∈ argset, ∀ kv ∈ parsed, kv.1 ≠ a.name)
    (hnodup : (argset.map Argument.name).Nodup) :
    Command.runArgset Command.parseStepSync argset (parsed, toks) =
      (expectedEntries argset toks).map (fun pr => (parsed ++ pr.1, pr.2)) := by
  induction argset generalizing parsed toks with
  | nil => simp [Command.runArgset, expectedEntries, Except.map]
  | cons a rest ih =>
    rw [List.map_cons, List.nodup_cons] at hnodup
    have hstep : ∀ (v : JsVal), jsSet parsed a.name v = parsed ++ [(a.name, v)] :=
      fun v => jsSet_fresh parsed a.name v
        (fun kv hkv => hfresh a (List.mem_cons_self a rest) kv hkv)
    have hfresh2 : ∀ (v : JsVal), ∀ a2 ∈ rest, ∀ kv ∈ parsed ++ [(a.name, v)],
        kv.1 ≠ a2.name := by
      intro v a2 ha2 kv hkv
      rcases List.mem_append.mp hkv with hin | hone
      · exact hfresh a2 (List.mem_cons_of_mem a ha2) kv hin
      · rcases List.mem_singleton.mp hone with rfl
        intro heq
        have heq2 : a.name = a2.name := heq
        exact hnodup.1 (heq2 ▸ List.mem_map_of_mem Argument.name ha2)
    have hrun : ∀ st, Command.runArgset Command.parseStepSync (a :: rest) st =
        match Command.parseStepSync a st with
        | .error e => .error e
        | .ok st2 => Command.runArgset Command.parseStepSync rest st2 := fun _ => rfl
    have hfin : ∀ (res : Except JsErr JsVal) (toks2 : List String),
        (Command.parseStepSync a (parsed, toks) =
          res.map (fun v => (jsSet parsed a.name v, toks2))) →
        (expectedEntries (a :: rest) toks =
          expectedEntriesStep a res (expectedEntries rest toks2)) →
        Command.runArgset Command.parseStepSync (a :: rest) (parsed, toks) =
          (expectedEntries (a :: rest) toks).map (fun pr => (parsed ++ pr.1, pr.2)) := by
      intro res toks2 h1 h2
      rw [hrun, h1, h2]
      cases res with
      | error e => rfl
      | ok v =>
        simp only [Except.map]
        rw [hstep v, ih (parsed ++ [(a.name, v)]) toks2 (hfresh2 v) hnodup.2]
        cases expectedEntries rest toks2 with
        | error e => rfl
        | ok pr => simp [Except.map, expectedEntriesStep]
    cases hv : a.varargs with
    | true =>
      refine hfin (a.parseSyncMode (.strlist toks)) [] ?_ ?_
      · simp [Command.parseStepSync, hv]
      · simp [expectedEntries, hv]
    | false =>
      cases toks with
      | nil =>
        refine hfin (a.parseSyncMode .absent) [] ?_ ?_
        · simp [Command.parseStepSync, hv]
        · simp [expectedEntries, hv]
      | cons t ts =>
        refine hfin (a.parseSyncMode (.single t)) ts ?_ ?_
        · simp [Command.parseStepSync, hv]
        · simp [expectedEntries, hv]

/-- On success, `expectedEntries` yields one entry per argument, named
in set order. -/
theorem expectedEntries_names (argset : List Argument) (toks : List String)
    (es : List (String × JsVal)) (rem : List String)
    (h : expectedEntries argset toks = .ok (es, rem)) :
    es.map Prod.fst = argset.map Argument.name := by
  induction argset generalizing toks es rem with
  | nil =>
    unfold expectedEntries at h
    cases h
    rfl
  | cons a rest ih =>
    unfold expectedEntries at h
    have hstep : ∀ (v : Except JsErr JsVal) (toks2 : List String),
        expectedEntriesStep a v (expectedEntries rest toks2) = .ok (es, rem) →
        es.map Prod.fst = (a :: rest).map Argument.name := by
      intro v toks2 hs
      unfold expectedEntriesStep at hs
      split at hs
      · cases hs
      · split at hs
        · cases hs
        · cases hs
          simpa using ih _ _ _ (by assumption)
    split at h
    · exact hstep _ _ h
    · split at h
      · exact hstep _ _ h
      · exact hstep _ _ h

/-- C6 counterexample: an `Argument` may be named `_`; its parsed value
then overwrites the reserved raw-tokens entry, so the returned
structure's `_` entry is the argument's value, not the full token
list. -/
theorem claim6_counterexample :
    cmdUnderscore.parseSyncMode ["x"] = .ok [("_", JsVal.vstr "x")] := rfl

/-- C6 (amended): for every successful `Command.parse(tokens)` whose
matched set has pairwise-distinct argument names, none of them the
reserved `_`, the returned structure is exactly the reserved entry
holding the full token list followed by one entry per argument in set
order, each holding that argument's parsed value (`expectedEntries`);
in particular the keys are exactly `_` plus the argument names.  The
round-trip: the two-argument command with handler `args => args`
executed on `["v1", "v2"]` returns exactly that structure. -/
theorem claim6_parse_output_shape :
    (∀ (c : Command) (parts : List String) (set : List Argument) (m : Args),
      c.selectArgset parts = .ok set →
      (set.map Argument.name).Nodup →
      "_" ∉ set.map Argument.name →
      c.parseSyncMode parts = .ok m →
      ∃ es rem, expectedEntries set parts = .ok (es, rem) ∧
        m = ("_", JsVal.vlist (parts.map .vstr)) :: es ∧
        m.map Prod.fst = "_" :: set.map Argument.name) ∧
    cmdRoundTrip.executeSyncTokens ["v1", "v2"] [] =
      .ok (.vobj [("_", JsVal.vlist [JsVal.vstr "v1", JsVal.vstr "v2"]),
        ("one", JsVal.vstr "v1"), ("two", JsVal.vstr "v2")]) := by
  constructor
  · intro c parts set m hsel hnodup hres hok
    have hfresh : ∀ a ∈ set, ∀ kv ∈ (jsSet [] "_" (JsVal.vlist (parts.map .vstr))),
        kv.1 ≠ a.name := by
      intro a ha kv hkv
      have hkv2 : kv = ("_", JsVal.vlist (parts.map .vstr)) := by
        simpa [jsSet] using hkv
      subst hkv2
      intro heq
      have heq2 : "_" = a.name := heq
      apply hres
      rw [heq2]
      exact List.mem_map_of_mem Argument.name ha
    unfold Command.parseSyncMode at hok
    rw [hsel] at hok
    unfold Command.parseWithSet at hok
    simp only at hok
    rw [runArgset_expected set _ parts hfresh hnodup] at hok
    cases hee : expectedEntries set parts with
    | error e =>
      rw [hee] at hok
      cases hok
    | ok pr =>
      rw [hee] at hok
      simp only [Except.map] at hok
      cases hex : Command.parseCheckExtraArgs pr.2 with
      | error e =>
        rw [hex] at hok
        cases hok
      | ok u =>
        rw [hex] at hok
        have hm : jsSet [] "_" (JsVal.vlist (parts.map .vstr)) ++ pr.1 = m := by
          injection hok
        refine ⟨pr.1, pr.2, by simp [hee], ?_, ?_⟩
        · rw [← hm]
          simp [jsSet]
        · rw [← hm]
          simp only [jsSet, List.any_nil, Bool.false_eq_true, if_neg, not_false_iff,
            List.nil_append, List.singleton_append, List.map_cons]
          rw [expectedEntries_names set parts pr.1 pr.2 (by simp [hee])]
  · rfl

/-- C6 witness: the amended statement at the round-trip command. -/
theorem claim6_parse_output_shape_witness :
    ∃ es rem, expectedEntries [argOne, argTwo] ["v1", "v2"] = .ok (es, rem) ∧
      ([("_", JsVal.vlist [JsVal.vstr "v1", JsVal.vstr "v2"]),
        ("one", JsVal.vstr "v1"), ("two", JsVal.vstr "v2")] : Args) =
        ("_", JsVal.vlist (["v1", "v2"].map JsVal.vstr)) :: es ∧
      ([("_", JsVal.vlist [JsVal.vstr "v1", JsVal.vstr "v2"]),
        ("one", JsVal.vstr "v1"), ("two", JsVal.vstr "v2")] : Args).map Prod.fst =
        "_" :: [argOne, argTwo].map Argument.name :=
  claim6_parse_output_shape.1 cmdRoundTrip ["v1", "v2"] [argOne, argTwo] _
    rfl (by decide) (by decide) rfl

/-- `hasDupLengths` is the negation of pairwise-distinct lengths. -/
theorem hasDupLengths_iff (l : List (List Argument)) :
    hasDupLengths l = true ↔ ¬ l.Pairwise (fun s t => s.length ≠ t.length) := by
  induction l with
  | nil => simp [hasDupLengths]
  | cons s rest ih =>
    rw [List.pairwise_cons]
    simp only [hasDupLengths, Bool.or_eq_true, List.any_eq_true, beq_iff_eq, ih]
    constructor
    · rintro (⟨t, ht, he⟩ | hnp)
      · intro hand
        exact hand.1 t ht he.symm
      · intro hand
        exact hnp hand.2
    · intro hn
      by_cases hp : rest.Pairwise fun s t => s.length ≠ t.length
      · left
        by_contra hno
        push_neg at hno
        refine hn ⟨?_, hp⟩
        intro t ht he
        exact hno t ht he.symm
      · right
        exact hp

/-- The fold of `maxSetLen` dominates its seed and every length. -/
theorem foldl_max_ge (sets : List (List Argument)) (i : Nat) :
    i ≤ sets.foldl (fun mx cur => if mx < cur.length then cur.length else mx) i ∧
    ∀ s ∈ sets, s.length ≤
      sets.foldl (fun mx cur => if mx < cur.length then cur.length else mx) i := by
  induction sets generalizing i with
  | nil => exact ⟨Nat.le_refl i, by simp⟩
  | cons s rest ih =>
    simp only [List.foldl_cons]
    have hstep : i ≤ (if i < s.length then s.length else i) ∧
        s.length ≤ (if i < s.length then s.length else i) := by
      split <;> omega
    obtain ⟨h1, h2⟩ := ih (if i < s.length then s.length else i)
    refine ⟨Nat.le_trans hstep.1 h1, ?_⟩
    intro t ht
    rcases List.mem_cons.mp ht with rfl | ht2
    · exact Nat.le_trans hstep.2 h1
    · exact h2 t ht2

/-- The fold of `maxSetLen` is its seed or an achieved length. -/
theorem foldl_max_achieved (sets : List (List Argument)) (i : Nat) :
    sets.foldl (fun mx cur => if mx < cur.length then cur.length else mx) i = i ∨
    ∃ s ∈ sets, s.length =
      sets.foldl (fun mx cur => if mx < cur.length then cur.length else mx) i := by
  induction sets generalizing i with
  | nil => exact .inl rfl
  | cons s rest ih =>
    simp only [List.foldl_cons]
    rcases ih (if i < s.length then s.length else i) with h | ⟨t, ht, he⟩
    · by_cases hc : i < s.length
      · right
        refine ⟨s, List.mem_cons_self s rest, ?_⟩
        rw [h, if_pos hc]
      · left
        rw [h, if_neg hc]
    · right
      exact ⟨t, List.mem_cons_of_mem s ht, he⟩

/-- Every set's length is at most `maxSetLen`. -/
theorem length_le_maxSetLen (sets : List (List Argument)) :
    ∀ s ∈ sets, s.length ≤ maxSetLen sets :=
  (foldl_max_ge sets 0).2

/-- On a nonempty list, `maxSetLen` is achieved. -/
theorem maxSetLen_mem (sets : List (List Argument)) (hne : sets ≠ []) :
    ∃ s ∈ sets, s.length = maxSetLen sets := by
  rcases foldl_max_achieved sets 0 with h | h
  · obtain ⟨s, hs⟩ := List.exists_mem_of_ne_nil sets hne
    refine ⟨s, hs, ?_⟩
    have hle := (foldl_max_ge sets 0).2 s hs
    unfold maxSetLen
    omega
  · exact h

/-- A list of length at most one has at most one member value. -/
theorem eq_of_mem_of_length_le_one {α : Type _} {l : List α} (h : l.length ≤ 1)
    {a b : α} (ha : a ∈ l) (hb : b ∈ l) : a = b := by
  match l with
  | [] => cases ha
  | [x] =>
    rcases List.mem_singleton.mp ha with rfl
    rcases List.mem_singleton.mp hb with rfl
    rfl
  | x :: y :: rest => simp at h

/-- The source's "a `p`-argument exists and the first is not last"
check is equivalent to "some `p`-argument stands before the last
position". -/
theorem any_findIdx_not_last (set : List Argument) (p : Argument → Bool) :
    (set.any p = true ∧ set.findIdx p ≠ set.length - 1) ↔
      set.dropLast.any p = true := by
  constructor
  · rintro ⟨hany, hne⟩
    have hex : ∃ x ∈ set, p x := by simpa [List.any_eq_true] using hany
    have hi : set.findIdx p < set.length := List.findIdx_lt_length_of_exists hex
    have hlt : set.findIdx p < set.length - 1 := by omega
    have hlt2 : set.findIdx p < set.dropLast.length := by
      rw [List.length_dropLast]
      exact hlt
    have hp : p set[set.findIdx p] = true := List.findIdx_getElem (w := hi)
    rw [List.any_eq_true]
    refine ⟨set.dropLast[set.findIdx p], List.getElem_mem hlt2, ?_⟩
    rw [List.getElem_dropLast]
    exact hp
  · intro hany
    rw [List.any_eq_true] at hany
    obtain ⟨x, hx, hp⟩ := hany
    obtain ⟨i, hi, rfl⟩ := List.mem_iff_getElem.mp hx
    have hi2 : i < set.length - 1 := by
      rw [List.length_dropLast] at hi
      exact hi
    rw [List.getElem_dropLast] at hp
    have hilen : i < set.length := by omega
    constructor
    · rw [List.any_eq_true]
      exact ⟨set[i], List.getElem_mem hilen, hp⟩
    · have hle : set.findIdx p ≤ i := by
        by_contra hcon
        push_neg at hcon
        have hfalse := List.not_of_lt_findIdx hcon
        rw [hp] at hfalse
        cases hfalse
      omega

/-- C5: assuming the invariant that previously added sets have
pairwise-distinct lengths (which every chain of successful `addArgSet`
calls maintains), `Command.addArgSet` raises a `SetupError` exactly
when the new set, evaluated against all previously added sets plus
itself, violates one of the five rules — two sets of equal length, an
optional argument not last in its set, a varargs argument not last in
its set, more than one set containing varargs, or a varargs-containing
set that is not the strictly largest (which covers the retroactive
case of a later, larger non-varargs set invalidating an earlier
varargs set); every error it raises is a `SetupError`; and on success
the new set is appended (with the command's async setting re-applied
to every argument, per the eager propagation). -/
theorem claim5_addArgSet_rules (c : Command) (argset : List Argument)
    (hpw : c.argsets.Pairwise fun s t => s.length ≠ t.length) :
    ((∃ msg, c.addArgSet argset = .error (.setupError msg)) ↔
      addArgSetViolation c.argsets argset = true) ∧
    (∀ e, c.addArgSet argset = .error e → ∃ msg, e = .setupError msg) ∧
    (∀ c', c.addArgSet argset = .ok c' →
      c'.argsets = (c.argsets ++ [argset]).map
        (fun set => set.map (fun a => a.asynchronous c.is_async))) := by
  classical
  have herr : ((c.argsets.any fun set => set.length == argset.length) = true ∨
      (argset.any (fun a => a.optional) &&
        !(argset.findIdx (fun a => a.optional) == argset.length - 1)) = true ∨
      (hasVarargs argset &&
        !(argset.findIdx (fun a => a.varargs) == argset.length - 1)) = true ∨
      ((c.argsets ++ [argset]).filter hasVarargs).length > 1 ∨
      ((c.argsets ++ [argset]).any hasVarargs &&
        !((c.argsets ++ [argset]).findIdx hasVarargs ==
          (c.argsets ++ [argset]).findIdx
            (fun set => set.length == maxSetLen (c.argsets ++ [argset])))) = true) →
      ∃ msg, c.addArgSet argset = .error (.setupError msg) := by
    intro hb
    unfold Command.addArgSet
    simp only
    by_cases h1 : (c.argsets.any fun set => set.length == argset.length) = true
    · rw [if_pos h1]
      exact ⟨_, rfl⟩
    · rw [if_neg h1]
      by_cases h2 : (argset.any (fun a => a.optional) &&
          !(argset.findIdx (fun a => a.optional) == argset.length - 1)) = true
      · rw [if_pos h2]
        exact ⟨_, rfl⟩
      · rw [if_neg h2]
        by_cases h3 : (hasVarargs argset &&
            !(argset.findIdx (fun a => a.varargs) == argset.length - 1)) = true
        · rw [if_pos h3]
          exact ⟨_, rfl⟩
        · rw [if_neg h3]
          by_cases h4 : ((c.argsets ++ [argset]).filter hasVarargs).length > 1
          · rw [if_pos h4]
            exact ⟨_, rfl⟩
          · rw [if_neg h4]
            by_cases h5 : ((c.argsets ++ [argset]).any hasVarargs &&
                !((c.argsets ++ [argset]).findIdx hasVarargs ==
                  (c.argsets ++ [argset]).findIdx
                    (fun set => set.length == maxSetLen (c.argsets ++ [argset])))) = true
            · rw [if_pos h5]
              exact ⟨_, rfl⟩
            · rcases hb with hb | hb | hb | hb | hb
              · exact absurd hb h1
              · exact absurd hb h2
              · exact absurd hb h3
              · exact absurd hb h4
              · exact absurd hb h5
  refine ⟨⟨?_, ?_⟩, ?_, ?_⟩
  · -- error implies violation
    rintro ⟨msg, h⟩
    unfold Command.addArgSet at h
    simp only at h
    split at h
    case isTrue h1 =>
      have hdup : hasDupLengths (c.argsets ++ [argset]) = true := by
        rw [hasDupLengths_iff]
        intro hpall
        rw [List.pairwise_append] at hpall
        rw [List.any_eq_true] at h1
        obtain ⟨s, hs, he⟩ := h1
        exact hpall.2.2 s hs argset (List.mem_singleton.mpr rfl) (by simpa using he)
      simp [addArgSetViolation, hdup]
    case isFalse h1 =>
      split at h
      case isTrue h2 =>
        rw [Bool.and_eq_true] at h2
        have hopt : optionalNotLast argset = true :=
          (any_findIdx_not_last argset (fun a => a.optional)).mp
            ⟨h2.1, by simpa using h2.2⟩
        simp [addArgSetViolation, hopt]
      case isFalse h2 =>
        split at h
        case isTrue h3 =>
          rw [Bool.and_eq_true] at h3
          have hvar : varargsNotLast argset = true :=
            (any_findIdx_not_last argset (fun a => a.varargs)).mp
              ⟨h3.1, by simpa using h3.2⟩
          simp [addArgSetViolation, hvar]
        case isFalse h3 =>
          split at h
          case isTrue h4 =>
            have hmulti : multipleVarargsSets (c.argsets ++ [argset]) = true := by
              simp only [multipleVarargsSets, decide_eq_true_eq]
              exact h4
            simp [addArgSetViolation, hmulti]
          case isFalse h4 =>
            split at h
            case isFalse h5 => cases h
            case isTrue h5 =>
              rw [Bool.and_eq_true] at h5
              obtain ⟨hany, hne⟩ := h5
              have hne2 : (c.argsets ++ [argset]).findIdx hasVarargs ≠
                  (c.argsets ++ [argset]).findIdx
                    (fun set => set.length == maxSetLen (c.argsets ++ [argset])) := by
                simpa using hne
              by_cases hdup : hasDupLengths (c.argsets ++ [argset]) = true
              · simp [addArgSetViolation, hdup]
              · have hpall : (c.argsets ++ [argset]).Pairwise
                    (fun s t => s.length ≠ t.length) := by
                  by_contra hc
                  exact hdup ((hasDupLengths_iff _).mpr hc)
                have hex : ∃ x ∈ c.argsets ++ [argset], hasVarargs x = true :=
                  List.any_eq_true.mp hany
                have hi : (c.argsets ++ [argset]).findIdx hasVarargs <
                    (c.argsets ++ [argset]).length :=
                  List.findIdx_lt_length_of_exists hex
                have hvari : hasVarargs
                    ((c.argsets ++ [argset])[(c.argsets ++ [argset]).findIdx hasVarargs]) =
                    true := List.findIdx_getElem (w := hi)
                have hexm : ∃ x ∈ c.argsets ++ [argset],
                    (fun set => set.length == maxSetLen (c.argsets ++ [argset])) x = true := by
                  obtain ⟨s, hs, he⟩ := maxSetLen_mem (c.argsets ++ [argset]) (by simp)
                  exact ⟨s, hs, by simpa using he⟩
                have hj : (c.argsets ++ [argset]).findIdx
                    (fun set => set.length == maxSetLen (c.argsets ++ [argset])) <
                    (c.argsets ++ [argset]).length :=
                  List.findIdx_lt_length_of_exists hexm
                have hmj : ((c.argsets ++ [argset])[(c.argsets ++ [argset]).findIdx
                    (fun set => set.length == maxSetLen (c.argsets ++ [argset]))]).length =
                    maxSetLen (c.argsets ++ [argset]) := by
                  have hb := List.findIdx_getElem
                    (p := fun (set : List Argument) => set.length == maxSetLen (c.argsets ++ [argset]))
                    (w := hj)
                  simpa using hb
                have hij_len : ((c.argsets ++ [argset])[(c.argsets ++
                    [argset]).findIdx hasVarargs]).length ≠
                    ((c.argsets ++ [argset])[(c.argsets ++ [argset]).findIdx
                      (fun set => set.length == maxSetLen (c.argsets ++ [argset]))]).length := by
                  rw [List.pairwise_iff_getElem] at hpall
                  rcases Nat.lt_trichotomy ((c.argsets ++ [argset]).findIdx hasVarargs)
                      ((c.argsets ++ [argset]).findIdx
                        (fun set => set.length == maxSetLen (c.argsets ++ [argset]))) with
                    hlt | heq | hgt
                  · exact hpall _ _ hi hj hlt
                  · exact absurd heq hne2
                  · exact (hpall _ _ hj hi hgt).symm
                have hle : ((c.argsets ++ [argset])[(c.argsets ++
                    [argset]).findIdx hasVarargs]).length ≤
                    maxSetLen (c.argsets ++ [argset]) :=
                  length_le_maxSetLen _ _ (List.getElem_mem hi)
                have hv5 : varargsNotLargest (c.argsets ++ [argset]) = true := by
                  rw [varargsNotLargest, List.any_eq_true]
                  refine ⟨_, List.getElem_mem hi, ?_⟩
                  rw [Bool.and_eq_true]
                  refine ⟨hvari, ?_⟩
                  rw [List.any_eq_true]
                  refine ⟨_, List.getElem_mem hj, ?_⟩
                  simp only [decide_eq_true_eq]
                  omega
                simp [addArgSetViolation, hv5]
  · -- violation implies error
    intro hviol
    simp only [addArgSetViolation, Bool.or_eq_true] at hviol
    rcases hviol with ((((hv1 | hv2) | hv3) | hv4) | hv5)
    · apply herr
      left
      have hnp := (hasDupLengths_iff _).mp hv1
      have hnc : ¬ ∀ s ∈ c.argsets, ∀ t ∈ [argset], s.length ≠ t.length := by
        intro hc
        apply hnp
        rw [List.pairwise_append]
        exact ⟨hpw, List.pairwise_singleton _ _, hc⟩
      push_neg at hnc
      obtain ⟨s, hs, t, ht, he⟩ := hnc
      rcases List.mem_singleton.mp ht with rfl
      rw [List.any_eq_true]
      exact ⟨s, hs, by simpa using he⟩
    · apply herr
      right; left
      have hc := (any_findIdx_not_last argset (fun a => a.optional)).mpr hv2
      rw [Bool.and_eq_true]
      exact ⟨hc.1, by simpa using hc.2⟩
    · apply herr
      right; right; left
      have hc := (any_findIdx_not_last argset (fun a => a.varargs)).mpr hv3
      rw [Bool.and_eq_true]
      exact ⟨hc.1, by simpa using hc.2⟩
    · apply herr
      right; right; right; left
      simpa [multipleVarargsSets] using hv4
    · by_cases h4 : ((c.argsets ++ [argset]).filter hasVarargs).length > 1
      · apply herr
        right; right; right; left
        exact h4
      · apply herr
        right; right; right; right
        rw [varargsNotLargest, List.any_eq_true] at hv5
        obtain ⟨s, hsmem, hs⟩ := hv5
        rw [Bool.and_eq_true] at hs
        obtain ⟨hsvar, hst⟩ := hs
        rw [List.any_eq_true] at hst
        obtain ⟨t, htmem, ht⟩ := hst
        rw [decide_eq_true_eq] at ht
        have hany : (c.argsets ++ [argset]).any hasVarargs = true := by
          rw [List.any_eq_true]
          exact ⟨s, hsmem, hsvar⟩
        have hex : ∃ x ∈ c.argsets ++ [argset], hasVarargs x = true := ⟨s, hsmem, hsvar⟩
        have hi : (c.argsets ++ [argset]).findIdx hasVarargs <
            (c.argsets ++ [argset]).length :=
          List.findIdx_lt_length_of_exists hex
        have hvari : hasVarargs
            ((c.argsets ++ [argset])[(c.argsets ++ [argset]).findIdx hasVarargs]) = true :=
          List.findIdx_getElem (w := hi)
        have hfle : ((c.argsets ++ [argset]).filter hasVarargs).length ≤ 1 := by omega
        have hieq : (c.argsets ++ [argset])[(c.argsets ++ [argset]).findIdx hasVarargs] = s :=
          eq_of_mem_of_length_le_one hfle
            (List.mem_filter.mpr ⟨List.getElem_mem hi, hvari⟩)
            (List.mem_filter.mpr ⟨hsmem, hsvar⟩)
        have hexm : ∃ x ∈ c.argsets ++ [argset],
            (fun set => set.length == maxSetLen (c.argsets ++ [argset])) x = true := by
          obtain ⟨u, hu, heu⟩ := maxSetLen_mem (c.argsets ++ [argset]) (by simp)
          exact ⟨u, hu, by simpa using heu⟩
        have hj : (c.argsets ++ [argset]).findIdx
            (fun set => set.length == maxSetLen (c.argsets ++ [argset])) <
            (c.argsets ++ [argset]).length :=
          List.findIdx_lt_length_of_exists hexm
        have hmj : ((c.argsets ++ [argset])[(c.argsets ++ [argset]).findIdx
            (fun set => set.length == maxSetLen (c.argsets ++ [argset]))]).length =
            maxSetLen (c.argsets ++ [argset]) := by
          have hb := List.findIdx_getElem
            (p := fun (set : List Argument) => set.length == maxSetLen (c.argsets ++ [argset]))
            (w := hj)
          simpa using hb
        have hltmax : s.length < maxSetLen (c.argsets ++ [argset]) :=
          Nat.lt_of_lt_of_le ht (length_le_maxSetLen _ t htmem)
        have hneidx : (c.argsets ++ [argset]).findIdx hasVarargs ≠
            (c.argsets ++ [argset]).findIdx
              (fun set => set.length == maxSetLen (c.argsets ++ [argset])) := by
          intro heq
          have hio : (c.argsets ++ [argset])[(c.argsets ++
              [argset]).findIdx hasVarargs]? = some s := by
            rw [List.getElem?_eq_getElem hi, hieq]
          rw [heq, List.getElem?_eq_getElem hj] at hio
          have hlen : ((c.argsets ++ [argset])[(c.argsets ++ [argset]).findIdx
              (fun set => set.length == maxSetLen (c.argsets ++ [argset]))]).length =
              s.length := by
            rw [Option.some_inj] at hio
            rw [hio]
          omega
        rw [Bool.and_eq_true]
        exact ⟨hany, by simpa using hneidx⟩
  · -- every raised error is a SetupError
    intro e h
    unfold Command.addArgSet at h
    simp only at h
    split at h
    · cases h
      exact ⟨_, rfl⟩
    · split at h
      · cases h
        exact ⟨_, rfl⟩
      · split at h
        · cases h
          exact ⟨_, rfl⟩
        · split at h
          · cases h
            exact ⟨_, rfl⟩
          · split at h
            · cases h
              exact ⟨_, rfl⟩
            · cases h
  · -- success appends the new set (flags re-applied)
    intro c' h
    rw [addArgSet_ok_eq c argset c' h]
    rfl

/-- C5 witness: the rules at a concrete command holding sets of lengths
one and three, receiving a fresh set of length two. -/
theorem claim5_addArgSet_rules_witness :
    ((∃ msg, cmdTwoSets.addArgSet [argPlainX, argPlainY] = .error (.setupError msg)) ↔
      addArgSetViolation cmdTwoSets.argsets [argPlainX, argPlainY] = true) ∧
    (∀ e, cmdTwoSets.addArgSet [argPlainX, argPlainY] = .error e →
      ∃ msg, e = .setupError msg) ∧
    (∀ c', cmdTwoSets.addArgSet [argPlainX, argPlainY] = .ok c' →
      c'.argsets = (cmdTwoSets.argsets ++ [[argPlainX, argPlainY]]).map
        (fun set => set.map (fun a => a.asynchronous cmdTwoSets.is_async))) :=
  claim5_addArgSet_rules cmdTwoSets [argPlainX, argPlainY] (by decide)

end Positional
